import Mathlib

/-!
# Verification of the `bigarray` storage engine

A shallow embedding of `bigarray/mmap_array.py` and `bigarray/pointer_array.py`:
a memory-mapped, append-growable array store (`MmapArrayWriter` / `MmapArray`)
and its named-index variant (`PointerArrayWriter` / `PointerArray`).

Modelling conventions:
* A row of the data region is its raw bytes (`Row := List Nat`).
* The on-disk file is a structure holding the header fields (element byte
  width, row count, trailing shape), the data region as a list of rows, and
  the bytes appended after the data region (the index trailer area).
  The memory mapping is shared with the file, so writer mutations of the
  mapped region are modelled as direct updates of `dataRows`.
* Python exceptions are an inductive `Err`, one constructor per raise site
  that the development needs; each constructor's doc ties it to the source.
* `marshal`/`pickle` are external codecs; `pickle` is modelled by a concrete
  executable codec satisfying the library contract `loads (dumps x) = x`.
-/

namespace BigArray

/-- Python exceptions, identified by raise site in the source.
* `writerClosed`: `RuntimeError("The MmapArrayWriter is closed!")`
  (`mmap_array.py`, `write`) — the spec's `AlreadyClosed`.
* `emptyAcceptedBatch`: `RuntimeError("No appropriate array found ...")`
  (`mmap_array.py`, `write`) — the spec's `InvalidArgument` for a
  non-conforming write payload.
* `shrinkNotSupported`: `ValueError("Only support extending memmap ...")`
  (`mmap_array.py`, `_resize`) — the spec's `InvalidArgument` for a shrink.
* `missingDtypeShape`: `Exception("First created this MmapData ...")`
  (`mmap_array.py`, `__init__`) — the spec's `InvalidArgument`.
* `writerCeiling`: `RuntimeError("Only allowed to open maximum ...")`
  (`mmap_array.py`, `__new__`) — the spec's `ResourceExhausted`.
* `badIndexedInput`: `ValueError("write function only accept dictionary ...")`
  (`pointer_array.py`, `write`) — the spec's `InvalidArgument` for a wrong
  input type to an indexed write.
* `attributeError`: Python `AttributeError` (e.g. calling `.items()` on an
  object that has no such attribute).
* `unpicklingError`: failure of `pickle.loads` on a malformed trailer blob. -/
inductive Err where
  | writerClosed
  | emptyAcceptedBatch
  | shrinkNotSupported
  | missingDtypeShape
  | writerCeiling
  | badIndexedInput
  | attributeError
  | unpicklingError
  deriving Repr, DecidableEq

/-- One row of the data region, as its raw bytes. -/
abbrev Row := List Nat

/-- The on-disk state of one store file.
`itemsize`, `headerRowCount` and `trailing` are the header fields (dtype byte
width and the stored shape `(headerRowCount, trailing...)`); `dataRows` is the
data region starting at the aligned offset, split into rows; `tail` holds the
bytes appended after the data region (the trailer area used by the
named-index variant; empty for a plain array store). -/
structure DiskFile where
  itemsize : Nat
  headerRowCount : Nat
  trailing : List Nat
  dataRows : List Row
  tail : List Nat
  deriving Repr, DecidableEq

/-- `MAX_OPEN_MMAP = 120` (`mmap_array.py` line 20). -/
def MAX_OPEN_MMAP : Nat := 120

/-- `_aligned_memmap_offset(dtype)`: the smallest multiple of the element
byte width that is at least `len(b'mmapdata') + 8 + 486 = 502`.  The source
computes `int(ceil(header_size / type_size) * type_size)`; for a positive
integer byte width this is the integer ceiling below. -/
def alignedMemmapOffset (itemsize : Nat) : Nat :=
  let headerSize := 8 + 8 + 486
  ((headerSize + itemsize - 1) / itemsize) * itemsize

/-- A freshly mapped (or grown) region is zero-filled by the OS: one row of
`itemsize * prod trailing` zero bytes. -/
def zeroRow (itemsize : Nat) (trailing : List Nat) : Row :=
  List.replicate (itemsize * trailing.prod) 0

/-- The state of one `MmapArrayWriter` instance: the shared file/mapping,
the append cursor `_start_position`, and the `_is_closed` flag. -/
structure Writer where
  file : DiskFile
  startPos : Nat
  isClosed : Bool
  deriving Repr, DecidableEq

/-- The leading dimension of the mapped data (`self._data.shape[0]`,
equal to `self.shape[0]`). -/
def Writer.rowCount (w : Writer) : Nat := w.file.dataRows.length

/-- A numpy array argument to `write`: its trailing shape `a.shape[1:]`
and its rows (`a.shape[0] = rows.length`), each row as raw bytes. -/
structure NpArr where
  trailing : List Nat
  rows : List Row
  deriving Repr, DecidableEq

/-- numpy slice assignment `data[start : start + len(xs)] = xs`.
In `write` the target range always lies inside the (resized) region, where
this equals the numpy behaviour. -/
def setSlice (data : List Row) (start : Nat) (xs : List Row) : List Row :=
  data.take start ++ xs ++ data.drop (start + xs.length)

/-- Shape normalization on creation (`mmap_array.py` line 152):
`tuple(0 if i is None or i < 0 else int(i) for i in shape)`. -/
def normalizeShape (shape : List (Option Int)) : List Nat :=
  shape.map fun i =>
    match i with
    | none => 0
    | some v => if v < 0 then 0 else v.toNat

/-- `MmapArrayWriter.__init__` (`mmap_array.py` lines 118-187).
`file` is the file currently at the resolved path — `none` when the path is
absent or the file is empty (`os.stat(path).st_size == 0`), in which case the
create branch runs.  On reopen the header is decoded, the append cursor is
set to the stored row count and the data region is mapped with the stored
shape; the caller-supplied `shape`/`itemsize` are ignored.  On creation the
header is written with the normalized shape and a region of
`leading` zero rows is mapped.  (The `marshal` blob-size check against the
486-byte cap always passes for the shapes modelled here and is not a subject
of any claim; it is therefore not modelled.) -/
def openInit (file : Option DiskFile) (shape : Option (List (Option Int)))
    (itemsize : Option Nat) (removeExist : Bool) : Except Err Writer :=
  let file := if removeExist then none else file
  match file with
  | some df => .ok { file := df, startPos := df.headerRowCount, isClosed := false }
  | none =>
      match itemsize, shape with
      | some isz, some sh =>
          let nsh := normalizeShape sh
          let leading := nsh.headD 0
          let trailing := nsh.tail
          .ok { file := { itemsize := isz, headerRowCount := leading,
                          trailing := trailing,
                          dataRows := List.replicate leading (zeroRow isz trailing),
                          tail := [] },
                startPos := 0, isClosed := false }
      | _, _ => .error .missingDtypeShape

/-- `MmapArrayWriter._resize` (`mmap_array.py` lines 229-263): shrinking
raises, an equal length is a no-op, growth rewrites the header row count in
place and remaps the file with the larger shape — the newly mapped area is
zero-filled by the OS, the old bytes stay where they were.  (The model keeps
`tail` unchanged; the development only resizes writers whose trailer area is
empty, which matches every use in the source.) -/
def Writer.resize (w : Writer) (newLength : Nat) : Except Err Writer :=
  let oldLength := w.file.dataRows.length
  if newLength < oldLength then .error .shrinkNotSupported
  else if newLength = oldLength then .ok w
  else .ok { w with
    file := { w.file with
      headerRowCount := newLength,
      dataRows := w.file.dataRows ++
        List.replicate (newLength - oldLength) (zeroRow w.file.itemsize w.file.trailing) } }

/-- The copy loop of `write` (`mmap_array.py` lines 314-317): each accepted
block is assigned into its slice and the local cursor advances; returns the
updated region and the final cursor. -/
def copyAll (data : List Row) (start : Nat) : List NpArr → List Row × Nat
  | [] => (data, start)
  | a :: rest => copyAll (setSlice data start a.rows) (start + a.rows.length) rest

/-- Start-position resolution (`mmap_array.py` lines 300-308 and, identically,
`pointer_array.py` lines 166-171): `None` resolves to the append cursor; a
negative `p` resolves to `shape[0] - p` (i.e. `shape[0] + |p|`); a
non-negative `p` resolves literally. -/
def resolveStart (w : Writer) (startPosition : Option Int) : Nat :=
  match startPosition with
  | none => w.startPos
  | some p => if p < 0 then w.file.dataRows.length + (-p).toNat else p.toNat

/-- `MmapArrayWriter.write` (`mmap_array.py` lines 265-320): reject when
closed; keep only blocks whose trailing shape matches the store; raise when
none remain; resolve the start position; grow once by the missing length;
copy each accepted block in order; advance the append cursor only when no
explicit start position was given. -/
def Writer.write (w : Writer) (arrays : List NpArr) (startPosition : Option Int) :
    Except Err Writer :=
  if w.isClosed then .error .writerClosed
  else
    let accepted := arrays.filter fun a => a.trailing = w.file.trailing
    let addSize := (accepted.map fun a => a.rows.length).sum
    if accepted.isEmpty then .error .emptyAcceptedBatch
    else
      let given := startPosition.isSome
      let start : Nat := resolveStart w startPosition
      let addLength : Int :=
        (addSize : Int) - ((w.file.dataRows.length : Int) - (start : Int))
      let resized : Except Err Writer :=
        if 0 < addLength then
          w.resize ((w.file.dataRows.length : Int) + addLength).toNat
        else .ok w
      resized.map fun w1 =>
        let out := copyAll w1.file.dataRows start accepted
        { w1 with
          file := { w1.file with dataRows := out.1 },
          startPos := if given then w1.startPos else out.2 }

/-- `MmapArrayWriter.flush`: `msync` of the shared mapping; no change to the
logical file content. -/
def Writer.flush (w : Writer) : Writer := w

/-- `MmapArrayWriter.close` (`mmap_array.py` lines 215-227): idempotent;
marks the handle closed (registry eviction is modelled at the process level). -/
def Writer.close (w : Writer) : Writer :=
  if w.isClosed then w else { w with isClosed := true }

/-- The array view returned by `MmapArray.__new__` (`mmap_array.py` lines
375-392): the header is decoded and the data region is mapped with exactly
the stored shape, so the view covers the first `headerRowCount` rows. -/
structure ReaderView where
  rowCount : Nat
  trailing : List Nat
  rows : List Row
  deriving Repr, DecidableEq

/-- `MmapArray.__new__`: decode the header, map the data region at the
aligned offset with the decoded shape. -/
def mmapArrayNew (df : DiskFile) : ReaderView :=
  { rowCount := df.headerRowCount, trailing := df.trailing,
    rows := df.dataRows.take df.headerRowCount }

/-- A sequence of append-mode `write` calls, one per block. -/
def writeSeq (w : Writer) (blocks : List NpArr) : Except Err Writer :=
  blocks.foldlM (fun w b => w.write [b] none) w

/-- The concrete writer used to instantiate hypotheses of the claims. -/
def wEx : Writer :=
  { file := { itemsize := 8, headerRowCount := 2, trailing := [1],
              dataRows := [[1, 2, 3, 4, 5, 6, 7, 8], [9, 10, 11, 12, 13, 14, 15, 16]],
              tail := [] },
    startPos := 2, isClosed := false }

/-! ### The named-index layer (`pointer_array.py`) -/

/-- The shared index: an insertion-ordered mapping from string identity to a
`(start, end)` row range, as held by the multiprocessing shared dictionary. -/
abbrev PtrIndex := List (String × Nat × Nat)

/-- Python dict assignment `d[k] = v`: overwrite in place, else append. -/
def dictSet : PtrIndex → String → Nat × Nat → PtrIndex
  | [], k, v => [(k, v)]
  | e :: es, k, v => if e.1 = k then (k, v) :: es else e :: dictSet es k v

/-- Python dict `d.update(items)`, in iteration order of `items`
(`_SharedDictWriter.update`, lock-guarded in the source). -/
def dictUpdate (d : PtrIndex) (items : PtrIndex) : PtrIndex :=
  items.foldl (fun acc e => dictSet acc e.1 e.2) d

/-- Base-256 little-endian digits, fuel-based so that it reduces by
iota-recursion (`fuel ≥ n` suffices; `natDigits` passes `n` itself). -/
def natDigitsAux : Nat → Nat → List Nat
  | 0, _ => []
  | _ + 1, 0 => []
  | fuel + 1, n + 1 => (n + 1) % 256 :: natDigitsAux fuel ((n + 1) / 256)

/-- Base-256 little-endian digits of a natural number (empty for `0`). -/
def natDigits (n : Nat) : List Nat := natDigitsAux n n

def natFromDigits : List Nat → Nat
  | [] => 0
  | d :: ds => d + 256 * natFromDigits ds

/-- Length field of the model `pickle` codec: digits then an end marker
(the marker value `256` cannot be a digit, so decoding is unambiguous). -/
def encNat (n : Nat) : List Nat := natDigits n ++ [256]

def decNat (bs : List Nat) : Option (Nat × List Nat) :=
  match bs.dropWhile (fun b => b < 256) with
  | [] => none
  | _ :: tl => some (natFromDigits (bs.takeWhile (fun b => b < 256)), tl)

def encStr (s : String) : List Nat := encNat s.length ++ s.data.map Char.toNat

def decChars : Nat → List Nat → Option (List Char × List Nat)
  | 0, bs => some ([], bs)
  | _ + 1, [] => none
  | k + 1, b :: bs => (decChars k bs).map fun r => (Char.ofNat b :: r.1, r.2)

def encEntry (e : String × Nat × Nat) : List Nat :=
  encStr e.1 ++ encNat e.2.1 ++ encNat e.2.2

def decEntry (bs : List Nat) : Option ((String × Nat × Nat) × List Nat) := do
  let (k, bs) ← decNat bs
  let (cs, bs) ← decChars k bs
  let (s, bs) ← decNat bs
  let (e, bs) ← decNat bs
  pure ((⟨cs⟩, s, e), bs)

/-- Model of `pickle.dumps` on the index mapping: `pickle` is an external
collaborator, so only its contract matters — an executable encoding whose
decoder recovers the mapping exactly (`loads (dumps m) = m`, proved below). -/
def pickleDumps (m : PtrIndex) : List Nat :=
  encNat m.length ++ (m.map encEntry).flatten

def decEntries : Nat → List Nat → Option (PtrIndex × List Nat)
  | 0, bs => some ([], bs)
  | k + 1, bs => do
      let (e, bs) ← decEntry bs
      let (es, bs) ← decEntries k bs
      pure (e :: es, bs)

/-- Model of `pickle.loads` on an index blob. -/
def pickleLoads (bs : List Nat) : Option PtrIndex := do
  let (k, bs) ← decNat bs
  let (es, _) ← decEntries k bs
  pure es

/-- `n.to_bytes(w, 'big')` (`pointer_array.py` line 201). -/
def toBytesBE : Nat → Nat → List Nat
  | 0, _ => []
  | w + 1, n => toBytesBE w (n / 256) ++ [n % 256]

/-- `int.from_bytes(bs, 'big')` (`pointer_array.py` line 121). -/
def fromBytesBE (bs : List Nat) : Nat :=
  bs.foldl (fun acc b => acc * 256 + b) 0

/-- The byte stream of the whole file: header plus padding (their length is
the aligned offset; their content plays no role in the trailer protocol),
then the data region, then the appended trailer area. -/
def fileBytes (df : DiskFile) : List Nat :=
  List.replicate (alignedMemmapOffset df.itemsize) 0 ++ df.dataRows.flatten ++ df.tail

/-- The trailer read of the `PointerArrayWriter._init` reopen branch
(`pointer_array.py` lines 118-125): seek to `filesize - 8`, read the 8-byte
big-endian blob length `L`, seek to `filesize - 8 - L`, unpickle `L` bytes. -/
def readTrailer (bs : List Nat) : Option PtrIndex :=
  let n := bs.length
  let L := fromBytesBE (bs.drop (n - 8))
  pickleLoads ((bs.drop (n - 8 - L)).take L)

/-- The state of one `PointerArrayWriter`: the underlying array-store writer,
the shared index mapping, and the `_is_indices_saved` flag. -/
structure PtrWriter where
  base : Writer
  indices : PtrIndex
  isIndicesSaved : Bool
  deriving Repr, DecidableEq

/-- `PointerArrayWriter._init` (`pointer_array.py` lines 106-125), the
initializer of the indexed writer: run the array-store open, clear the
saved flag, then establish the shared index — seed it from `indices` when
given; else start empty when `_start_position == 0 or self.shape[0] == 0`
(newly created store); else read the trailer from the file tail and seed
from it (`unpicklingError` when the blob does not unpickle).

Wiring caveat: in the source as written this method is unreachable —
`PointerArrayWriter` does not override `__init__`, so plain construction
runs the inherited `MmapArrayWriter.__init__` and never establishes the
index (`write` then dies on the missing `_indices` attribute), and the one
caller, `__setstate__`, goes through `super()._init`, which does not exist
on `MmapArrayWriter` (it only has `__init__`) and raises `AttributeError`.
The class docstring, the spec and the repository's own tests all expect
`_init` to be the indexed open path; the embedding models that intent. -/
def pInit (file : Option DiskFile) (shape : Option (List (Option Int)))
    (itemsize : Option Nat) (removeExist : Bool) (indices : Option PtrIndex) :
    Except Err PtrWriter := do
  let w ← openInit file shape itemsize removeExist
  match indices with
  | some idx => pure { base := w, indices := idx, isIndicesSaved := false }
  | none =>
      if w.startPos = 0 ∨ w.file.dataRows.length = 0 then
        pure { base := w, indices := [], isIndicesSaved := false }
      else
        match readTrailer (fileBytes w.file) with
        | some idx => pure { base := w, indices := idx, isIndicesSaved := false }
        | none => .error .unpicklingError

/-- The shape filter of `PointerArrayWriter.write` (lines 173-178): keep the
named blocks whose trailing shape matches the store, in input order. -/
def pAccepted (w : Writer) (items : List (String × NpArr)) : List (String × NpArr) :=
  items.filter fun e => e.2.trailing = w.file.trailing

/-- The range-assignment loop of `PointerArrayWriter.write` (lines 180-182):
each accepted key gets `(start, start + block_row_count)` and the local start
advances, in iteration order. -/
def assignRanges (start : Nat) : List (String × NpArr) → PtrIndex
  | [] => []
  | e :: rest =>
      (e.1, start, start + e.2.rows.length) :: assignRanges (start + e.2.rows.length) rest

/-- `PointerArrayWriter.write` (lines 138-186) after its input validation,
for a dict input whose items are `entries` in insertion order: clear the
saved flag, resolve the start position, filter by trailing shape, merge the
assigned ranges into the shared index, then delegate the accepted blocks and
the original `start_position` to the array-store write. -/
def pwrite (pw : PtrWriter) (entries : List (String × NpArr)) (sp : Option Int) :
    Except Err PtrWriter :=
  let pw1 : PtrWriter := { pw with isIndicesSaved := false }
  let start := resolveStart pw1.base sp
  let accepted := pAccepted pw1.base entries
  let pw2 : PtrWriter :=
    { pw1 with indices := dictUpdate pw1.indices (assignRanges start accepted) }
  (pw2.base.write (accepted.map fun e => e.2) sp).map fun w' => { pw2 with base := w' }

/-- `PointerArrayWriter.flush` (lines 188-203): array-store flush (no logical
change), then — only when the index is not yet saved — mark it saved and
append the pickled index followed by its 8-byte big-endian length to the end
of the file. -/
def pflush (pw : PtrWriter) : PtrWriter :=
  if pw.isIndicesSaved then pw
  else
    { pw with
      isIndicesSaved := true,
      base := { pw.base with file := { pw.base.file with
        tail := pw.base.file.tail ++ pickleDumps pw.indices ++
          toBytesBE 8 (pickleDumps pw.indices).length } } }

/-- A Python key: the validation only asks whether it is a `str`. -/
inductive PKey where
  | str (s : String)
  | int (n : Int)
  deriving Repr, DecidableEq

/-- A Python value: the validation only asks whether it has a `shape`. -/
inductive PVal where
  | arr (a : NpArr)
  | plain
  deriving Repr, DecidableEq

/-- The possible `arrays` arguments to the indexed write, as far as the
validation can distinguish them: a `dict`, a non-`dict` object with an
`.items()` method, or an object without one. -/
inductive WriteArg where
  | dict (entries : List (PKey × PVal))
  | mapping (entries : List (PKey × PVal))
  | nonMapping
  deriving Repr, DecidableEq

def PKey.isStr : PKey → Bool
  | .str _ => true
  | .int _ => false

def PVal.hasShape : PVal → Bool
  | .arr _ => true
  | .plain => false

/-- The input validation at the head of `PointerArrayWriter.write`
(`pointer_array.py` lines 156-160), translated verbatim:
`if not isinstance(arrays, dict) and all(isinstance(i, string_types) and
hasattr(j, 'shape') for i, j in arrays.items()): raise ValueError(...)`.
For a `dict` the first conjunct is false and the `and` short-circuits; for a
non-`dict` with `.items()` the generator is evaluated and the raise fires
exactly when every item is a string-to-shaped pair; for an object without
`.items()` evaluating the generator raises `AttributeError`. -/
def checkWriteArg : WriteArg → Except Err Unit
  | .dict _ => .ok ()
  | .mapping es =>
      if es.all (fun e => e.1.isStr && e.2.hasShape) then .error .badIndexedInput
      else .ok ()
  | .nonMapping => .error .attributeError

/-- A concrete indexed writer over `wEx` with an empty index. -/
def pwEx : PtrWriter := { base := wEx, indices := [], isIndicesSaved := false }

/-! ### The process-wide writer registry (`MmapArrayWriter.__new__`) -/

/-- Association-list lookup with string keys (Python dict lookup). -/
def lookupA {β : Type} : List (String × β) → String → Option β
  | [], _ => none
  | e :: es, k => if e.1 = k then some e.2 else lookupA es k

/-- Python dict assignment `d[k] = v`: overwrite in place, else append. -/
def setA {β : Type} : List (String × β) → String → β → List (String × β)
  | [], k, v => [(k, v)]
  | e :: es, k, v => if e.1 = k then (k, v) :: es else e :: setA es k v

/-- Python `del d[k]`. -/
def removeA {β : Type} : List (String × β) → String → List (String × β)
  | [], _ => []
  | e :: es, k => if e.1 = k then removeA es k else e :: removeA es k

/-- A writer object in the per-process heap: its resolved absolute path and
its state.  The heap position is the object's identity. -/
structure WriterObj where
  path : String
  w : Writer
  deriving Repr, DecidableEq

/-- The state of one process: every writer object constructed so far (the
heap; index = object identity), the `_INSTANCES_WRITER` registry mapping
resolved path → heap index, and the file system (path → current non-empty
file at that path). -/
structure Proc where
  heap : List WriterObj
  registry : List (String × Nat)
  disk : List (String × DiskFile)
  deriving Repr, DecidableEq

/-- State of a bare `object.__new__` instance before `__init__` runs;
`__init__` overwrites it right away.  (When `__init__` raises on a fresh
path, Python leaves a broken attribute-less instance registered; any later
touch of it raises, and no claim exercises that corner — the placeholder is
marked closed so it can never pose as a live handle.) -/
def blankWriter : Writer :=
  { file := { itemsize := 0, headerRowCount := 0, trailing := [],
              dataRows := [], tail := [] },
    startPos := 0, isClosed := true }

/-- Run `__init__` on heap object `i`: open against the file currently at
`path` (deleting it first under `remove_exist`), store the initialized
writer in the object and the created/changed file on disk.  An exception
propagates without rolling back earlier state changes, as in Python. -/
def runInit (p : Proc) (i : Nat) (path : String) (shape : Option (List (Option Int)))
    (itemsize : Option Nat) (removeExist : Bool) : Proc × Except Err Nat :=
  let fileAt := lookupA p.disk path
  let disk1 := if removeExist then removeA p.disk path else p.disk
  match openInit fileAt shape itemsize removeExist with
  | .error e => ({ p with disk := disk1 }, .error e)
  | .ok w =>
      ({ p with
          disk := setA disk1 path w.file,
          heap := p.heap.set i { path := path, w := w } },
        .ok i)

/-- A call `MmapArrayWriter(path, shape, dtype, remove_exist)`:
`__new__` (`mmap_array.py` lines 97-116) — return the registered instance
when it is live; otherwise check the ceiling
`get_total_opened_mmap() > MAX_OPEN_MMAP`, create a fresh instance and
register it — and then Python's unconditional `__init__` call on whatever
`__new__` returned, a pre-existing live instance included. -/
def construct (p : Proc) (path : String) (shape : Option (List (Option Int)))
    (itemsize : Option Nat) (removeExist : Bool) : Proc × Except Err Nat :=
  let liveIdx : Option Nat :=
    match lookupA p.registry path with
    | some i =>
        match p.heap[i]? with
        | some obj => if obj.w.isClosed then none else some i
        | none => none
    | none => none
  match liveIdx with
  | some i => runInit p i path shape itemsize removeExist
  | none =>
      if p.registry.length > MAX_OPEN_MMAP then (p, .error .writerCeiling)
      else
        let i := p.heap.length
        let p1 : Proc :=
          { p with
            heap := p.heap ++ [{ path := path, w := blankWriter }],
            registry := setA p.registry path i }
        runInit p1 i path shape itemsize removeExist

/-- `MmapArrayWriter.close` seen from the process state (`mmap_array.py`
lines 215-227): idempotent; marks the object closed and deletes its path
from the registry. -/
def procClose (p : Proc) (i : Nat) : Proc :=
  match p.heap[i]? with
  | none => p
  | some obj =>
      if obj.w.isClosed then p
      else
        { p with
          heap := p.heap.set i { obj with w := { obj.w with isClosed := true } },
          registry := removeA p.registry obj.path }

/-- The singleton invariant: every live (non-closed) writer object is the
one its path maps to in the registry — so two live objects can never share
a path. -/
def liveReg (p : Proc) : Prop :=
  ∀ i obj, p.heap[i]? = some obj → obj.w.isClosed = false →
    lookupA p.registry obj.path = some i

/-- Executable check of the `liveReg` invariant (used to establish it on
concrete process states). -/
def liveRegB (p : Proc) : Bool :=
  (List.range p.heap.length).all fun i =>
    match p.heap[i]? with
    | some obj =>
        if obj.w.isClosed then true else lookupA p.registry obj.path == some i
    | none => true

/-- The empty process state. -/
def procEmpty : Proc := { heap := [], registry := [], disk := [] }

/-- `n` successive constructions on distinct fresh paths in a fresh
process. -/
def constructMany (n : Nat) : Proc :=
  (List.range n).foldl
    (fun p k => (construct p (toString k) (some [some 1]) (some 1) false).1)
    procEmpty

/-- The process after one construction of a 10-row store at path `"a"`. -/
def c6p1 : Proc :=
  (construct procEmpty "a" (some [some 10, some 2]) (some 8) false).1

/-- The writer state produced by that first construction. -/
def wFirst : Writer :=
  { file := { itemsize := 8, headerRowCount := 10, trailing := [2],
              dataRows := List.replicate 10 (zeroRow 8 [2]), tail := [] },
    startPos := 0, isClosed := false }

/-- A process state whose registry already holds 121 entries. -/
def pFull : Proc :=
  { heap := [], registry := (List.range 121).map fun k => (toString k, k), disk := [] }

/-- `tilesFrom p rs q`: the half-open ranges `rs` tile `[p, q)` exactly —
the first starts at `p`, each range is non-empty-or-degenerate in the right
order (`start ≤ end`), each subsequent range starts where the previous one
ended, and the last ends at `q`. -/
def tilesFrom : Nat → List (Nat × Nat) → Nat → Bool
  | p, [], q => p == q
  | p, r :: rest, q => (r.1 == p) && (decide (p ≤ r.2)) && tilesFrom r.2 rest q

theorem filter_self_filter (p : NpArr → Bool) (l : List NpArr) :
    (l.filter p).filter p = l.filter p := by
  simp [List.filter_filter]

/-- One append-mode `write` of a single conforming block on a writer whose
cursor and header both sit at the end of the data: the block's rows land
right after the existing rows and the cursor advances past them. -/
theorem write_append_one (w : Writer) (b : NpArr)
    (hopen : w.isClosed = false)
    (hcur : w.startPos = w.file.dataRows.length)
    (hdr : w.file.headerRowCount = w.file.dataRows.length)
    (htr : b.trailing = w.file.trailing) :
    w.write [b] none = .ok
      { file := { itemsize := w.file.itemsize,
                  headerRowCount := w.file.dataRows.length + b.rows.length,
                  trailing := w.file.trailing,
                  dataRows := w.file.dataRows ++ b.rows,
                  tail := w.file.tail },
        startPos := w.file.dataRows.length + b.rows.length,
        isClosed := false } := by
  obtain ⟨⟨isz, hdrn, tr, data, tl⟩, sp, cl⟩ := w
  simp only at hopen hcur hdr htr
  subst hopen hcur hdr htr
  simp only [Writer.write, resolveStart, Bool.false_eq_true, if_false,
    List.filter_cons, decide_True, eq_self_iff_true, if_true, List.filter_nil,
    List.isEmpty_cons, List.map_cons, List.map_nil, List.sum_cons, List.sum_nil,
    Option.isSome_none, add_zero, sub_self, sub_zero]
  rcases Nat.eq_zero_or_pos b.rows.length with hk | hk
  · rw [List.length_eq_zero] at hk
    simp [hk, copyAll, setSlice, Writer.resize, Except.map]
  · rw [if_pos (show (0 : Int) < (b.rows.length : Int) by exact_mod_cast hk)]
    have h2 : ((data.length : Int) + (b.rows.length : Int)).toNat =
        data.length + b.rows.length := by omega
    rw [h2]
    simp only [Writer.resize]
    rw [if_neg (by omega), if_neg (by omega)]
    simp only [Except.map, copyAll, setSlice]
    have h3 : data.length + b.rows.length - data.length = b.rows.length := by omega
    rw [h3]
    have h4 : (data ++ List.replicate b.rows.length (zeroRow isz b.trailing)).take data.length
        = data := List.take_left data _
    have h5 : (data ++ List.replicate b.rows.length (zeroRow isz b.trailing)).drop
        (data.length + b.rows.length) = [] := by
      apply List.drop_eq_nil_of_le
      simp
    rw [h4, h5]
    simp

/-- C2 — Growth-only resize: shrinking fails, an equal length is a no-op and
growth preserves every previously written row (hence byte) at its unchanged
offset: the old rows are an exact initial segment of the new region, and the
aligned data offset — a function of the unchanged element width alone — does
not move. -/
theorem c2_resize_growth_only (w : Writer) (n : Nat) :
    (n < w.rowCount → w.resize n = .error .shrinkNotSupported) ∧
    (w.resize w.rowCount = .ok w) ∧
    (w.rowCount < n →
      ∃ w', w.resize n = .ok w' ∧
        w'.file.dataRows.take w.rowCount = w.file.dataRows ∧
        w'.file.dataRows.length = n ∧
        w'.file.itemsize = w.file.itemsize ∧
        w'.file.trailing = w.file.trailing ∧
        w'.file.headerRowCount = n ∧
        alignedMemmapOffset w'.file.itemsize = alignedMemmapOffset w.file.itemsize) := by
  refine ⟨fun h => ?_, ?_, fun h => ?_⟩
  · simp only [Writer.rowCount] at h
    simp only [Writer.resize]
    rw [if_pos h]
  · simp [Writer.resize, Writer.rowCount]
  · simp only [Writer.rowCount] at h
    refine ⟨{ w with file := { w.file with
                  headerRowCount := n,
                  dataRows := w.file.dataRows ++
                    List.replicate (n - w.file.dataRows.length)
                      (zeroRow w.file.itemsize w.file.trailing) } },
      ?_, ?_, ?_, rfl, rfl, rfl, rfl⟩
    · simp only [Writer.resize]
      rw [if_neg (by omega), if_neg (by omega)]
    · simp only [Writer.rowCount]
      exact List.take_left w.file.dataRows _
    · simp only [List.length_append, List.length_replicate]
      omega

/-- Witness for C2: on a concrete two-row writer, shrinking to 1 fails and
growing to 3 keeps both rows in place. -/
theorem resize_ge_ok (w : Writer) (n : Nat) (h : w.file.dataRows.length ≤ n) :
    ∃ w', w.resize n = .ok w' := by
  simp only [Writer.resize]
  rw [if_neg (by omega)]
  by_cases hn : n = w.file.dataRows.length
  · rw [if_pos hn]
    exact ⟨w, rfl⟩
  · rw [if_neg hn]
    exact ⟨_, rfl⟩

theorem write_ok_of_accepted_ne (w : Writer) (arrays : List NpArr) (sp : Option Int)
    (hopen : w.isClosed = false)
    (hne : arrays.filter (fun a => a.trailing = w.file.trailing) ≠ []) :
    ∃ w', w.write arrays sp = .ok w' := by
  simp only [Writer.write, hopen, Bool.false_eq_true, if_false]
  rw [if_neg (by simpa [List.isEmpty_iff] using hne)]
  by_cases hg : (0 : Int) <
      (((arrays.filter fun a => a.trailing = w.file.trailing).map
          fun a => a.rows.length).sum : Int) -
        ((w.file.dataRows.length : Int) - (resolveStart w sp : Int))
  · rw [if_pos hg]
    obtain ⟨w1, hw1⟩ := resize_ge_ok w
      (((w.file.dataRows.length : Int) +
        ((((arrays.filter fun a => a.trailing = w.file.trailing).map
            fun a => a.rows.length).sum : Int) -
          ((w.file.dataRows.length : Int) - (resolveStart w sp : Int)))).toNat)
      (by omega)
    rw [hw1]
    exact ⟨_, rfl⟩
  · rw [if_neg hg]
    exact ⟨_, rfl⟩

/-- C8 — Batch filtering: a `write` on an open writer behaves exactly as the
same `write` restricted to the blocks whose trailing shape matches the store
(the others are silently dropped); it fails — with the `InvalidArgument`
raise of the empty accepted batch — precisely when no block survives the
filter, and succeeds otherwise. -/
theorem c8_batch_filtering (w : Writer) (arrays : List NpArr) (sp : Option Int)
    (hopen : w.isClosed = false) :
    (w.write arrays sp =
      w.write (arrays.filter fun a => a.trailing = w.file.trailing) sp) ∧
    (arrays.filter (fun a => a.trailing = w.file.trailing) = [] →
      w.write arrays sp = .error .emptyAcceptedBatch) ∧
    (arrays.filter (fun a => a.trailing = w.file.trailing) ≠ [] →
      ∃ w', w.write arrays sp = .ok w') := by
  refine ⟨?_, fun h => ?_, fun h => write_ok_of_accepted_ne w arrays sp hopen h⟩
  · simp only [Writer.write, filter_self_filter]
  · simp [Writer.write, hopen, h]

/-- Witness for C8: on the concrete two-row writer, a batch holding one
conforming and one non-conforming block equals the write of the conforming
block alone and succeeds; an all-non-conforming batch fails. -/
theorem c8_batch_filtering_witness :
    (wEx.write [⟨[1], [[101, 102, 103, 104, 105, 106, 107, 108]]⟩, ⟨[2], [[1]]⟩] none =
      wEx.write ([⟨[1], [[101, 102, 103, 104, 105, 106, 107, 108]]⟩, ⟨[2], [[1]]⟩].filter
        fun a => a.trailing = wEx.file.trailing) none) ∧
    (wEx.write [⟨[2], [[1]]⟩] none = .error .emptyAcceptedBatch) ∧
    (∃ w', wEx.write [⟨[1], [[101, 102, 103, 104, 105, 106, 107, 108]]⟩, ⟨[2], [[1]]⟩] none
      = .ok w') :=
  ⟨(c8_batch_filtering wEx [⟨[1], [[101, 102, 103, 104, 105, 106, 107, 108]]⟩, ⟨[2], [[1]]⟩]
      none (by decide)).1,
   (c8_batch_filtering wEx [⟨[2], [[1]]⟩] none (by decide)).2.1 (by decide),
   (c8_batch_filtering wEx [⟨[1], [[101, 102, 103, 104, 105, 106, 107, 108]]⟩, ⟨[2], [[1]]⟩]
      none (by decide)).2.2 (by decide)⟩

theorem c2_resize_growth_only_witness :
    (wEx.resize 1 = .error .shrinkNotSupported) ∧
    (∃ w', wEx.resize 3 = .ok w' ∧
        w'.file.dataRows.take wEx.rowCount = wEx.file.dataRows ∧
        w'.file.dataRows.length = 3 ∧
        w'.file.itemsize = wEx.file.itemsize ∧
        w'.file.trailing = wEx.file.trailing ∧
        w'.file.headerRowCount = 3 ∧
        alignedMemmapOffset w'.file.itemsize = alignedMemmapOffset wEx.file.itemsize) :=
  ⟨(c2_resize_growth_only wEx 1).1 (by decide),
   (c2_resize_growth_only wEx 3).2.2 (by decide)⟩

/-- C10 — Reopen cursor: opening a writer on an existing non-empty file sets
the append cursor to the header row count, and a first append-mode write puts
the new block exactly after all existing rows. -/
theorem c10_reopen_cursor (df : DiskFile) (b : NpArr)
    (hlen : df.headerRowCount = df.dataRows.length)
    (htr : b.trailing = df.trailing) :
    ∃ w, openInit (some df) none none false = .ok w ∧
      w.startPos = df.headerRowCount ∧
      ∃ w', w.write [b] none = .ok w' ∧
        w'.file.dataRows = df.dataRows ++ b.rows ∧
        w'.startPos = df.dataRows.length + b.rows.length ∧
        w'.file.headerRowCount = df.dataRows.length + b.rows.length := by
  refine ⟨{ file := df, startPos := df.headerRowCount, isClosed := false }, rfl, rfl, ?_⟩
  exact ⟨_, write_append_one _ b rfl hlen hlen htr, rfl, rfl, rfl⟩

/-- Witness for C10: reopening the concrete two-row store resumes at row 2
and an append lands the new row at index 2. -/
theorem c10_reopen_cursor_witness :
    ∃ w, openInit (some wEx.file) none none false = .ok w ∧
      w.startPos = wEx.file.headerRowCount ∧
      ∃ w', w.write [⟨[1], [[21, 22, 23, 24, 25, 26, 27, 28]]⟩] none = .ok w' ∧
        w'.file.dataRows = wEx.file.dataRows ++ [[21, 22, 23, 24, 25, 26, 27, 28]] ∧
        w'.startPos = wEx.file.dataRows.length + 1 ∧
        w'.file.headerRowCount = wEx.file.dataRows.length + 1 :=
  c10_reopen_cursor wEx.file ⟨[1], [[21, 22, 23, 24, 25, 26, 27, 28]]⟩
    (by decide) (by decide)

theorem normalizeShape_natCast (l : List Nat) :
    normalizeShape (l.map fun n : Nat => some (n : Int)) = l := by
  induction l with
  | nil => rfl
  | cons x xs ih =>
      simp only [List.map_cons, normalizeShape] at ih ⊢
      rw [ih]
      simp

theorem except_ok_bind {α β : Type} (a : α) (f : α → Except Err β) :
    (Except.ok a >>= f) = f a := rfl

/-- Writing a list of conforming blocks one `write` call at a time, in append
mode, on a writer whose cursor and header sit at the end of the data: the
blocks land one after the other, in order. -/
theorem writeSeq_ok (w : Writer) (blocks : List NpArr)
    (hopen : w.isClosed = false)
    (hcur : w.startPos = w.file.dataRows.length)
    (hdr : w.file.headerRowCount = w.file.dataRows.length)
    (hconf : ∀ b ∈ blocks, b.trailing = w.file.trailing) :
    writeSeq w blocks = .ok
      { file := { itemsize := w.file.itemsize,
                  headerRowCount := w.file.dataRows.length +
                    (blocks.map fun b => b.rows.length).sum,
                  trailing := w.file.trailing,
                  dataRows := w.file.dataRows ++ (blocks.map fun b => b.rows).flatten,
                  tail := w.file.tail },
        startPos := w.file.dataRows.length + (blocks.map fun b => b.rows.length).sum,
        isClosed := false } := by
  induction blocks generalizing w with
  | nil =>
      obtain ⟨⟨isz, hdrn, tr, data, tl⟩, sp, cl⟩ := w
      simp only at hopen hcur hdr
      subst hopen hcur hdr
      simp [writeSeq, pure, Except.pure]
  | cons b bs ih =>
      have hb : b.trailing = w.file.trailing := hconf b (List.mem_cons_self b bs)
      have hstep := write_append_one w b hopen hcur hdr hb
      simp only [writeSeq, List.foldlM_cons, hstep, except_ok_bind]
      have hnext := ih
        { file := { itemsize := w.file.itemsize,
                    headerRowCount := w.file.dataRows.length + b.rows.length,
                    trailing := w.file.trailing,
                    dataRows := w.file.dataRows ++ b.rows,
                    tail := w.file.tail },
          startPos := w.file.dataRows.length + b.rows.length,
          isClosed := false }
        rfl (by simp) (by simp)
        (fun x hx => hconf x (List.mem_cons_of_mem b hx))
      simp only [writeSeq] at hnext
      rw [hnext]
      simp [List.append_assoc, Nat.add_assoc]

/-- C1 — Round-trip: create a store with leading dimension 0 and a fixed
trailing shape, write any sequence of conforming row-blocks totalling `N`
rows, flush and close; a reader opened on the resulting file sees leading
dimension `N` and exactly the written rows, byte for byte, in order. -/
theorem c1_round_trip (isz : Nat) (trailing : List Nat) (blocks : List NpArr)
    (hconf : ∀ b ∈ blocks, b.trailing = trailing) :
    ∃ w w',
      openInit none (some (some 0 :: trailing.map fun n : Nat => some (n : Int)))
        (some isz) false = .ok w ∧
      writeSeq w blocks = .ok w' ∧
      (mmapArrayNew (w'.flush.close).file).rowCount =
        (blocks.map fun b => b.rows.length).sum ∧
      (mmapArrayNew (w'.flush.close).file).rows = (blocks.map fun b => b.rows).flatten ∧
      (mmapArrayNew (w'.flush.close).file).trailing = trailing := by
  have h0 : normalizeShape (some 0 :: trailing.map fun n : Nat => some (n : Int)) =
      0 :: trailing := by
    have h1 := normalizeShape_natCast trailing
    simp only [normalizeShape, List.map_cons] at h1 ⊢
    rw [h1]
    norm_num
  have hopen : openInit none (some (some 0 :: trailing.map fun n : Nat => some (n : Int)))
      (some isz) false = .ok
      { file := { itemsize := isz, headerRowCount := 0, trailing := trailing,
                  dataRows := [], tail := [] },
        startPos := 0, isClosed := false } := by
    simp [openInit, h0]
  refine ⟨_, _, hopen,
    writeSeq_ok
      { file := { itemsize := isz, headerRowCount := 0, trailing := trailing,
                  dataRows := [], tail := [] },
        startPos := 0, isClosed := false }
      blocks rfl rfl rfl hconf, ?_, ?_, rfl⟩
  · simp [mmapArrayNew, Writer.flush, Writer.close]
  · simp only [mmapArrayNew, Writer.flush, Writer.close, Bool.false_eq_true,
      if_false, List.nil_append, List.length_nil, Nat.zero_add]
    have hl : (blocks.map fun b => b.rows).flatten.length =
        (blocks.map fun b => b.rows.length).sum := by
      simp [List.length_flatten, List.map_map, Function.comp_def]
    rw [← hl, List.take_length]

/-- Witness for C1: two blocks of trailing shape `[2]` (three rows in all)
round-trip through create, write, write, flush, close, reopen. -/
theorem c1_round_trip_witness :
    ∃ w w',
      openInit none (some (some 0 :: [2].map fun n : Nat => some (n : Int)))
        (some 1) false = .ok w ∧
      writeSeq w [⟨[2], [[1, 2], [3, 4]]⟩, ⟨[2], [[5, 6]]⟩] = .ok w' ∧
      (mmapArrayNew (w'.flush.close).file).rowCount =
        ([⟨[2], [[1, 2], [3, 4]]⟩, ⟨[2], [[5, 6]]⟩].map
          fun b : NpArr => b.rows.length).sum ∧
      (mmapArrayNew (w'.flush.close).file).rows =
        ([⟨[2], [[1, 2], [3, 4]]⟩, ⟨[2], [[5, 6]]⟩].map
          fun b : NpArr => b.rows).flatten ∧
      (mmapArrayNew (w'.flush.close).file).trailing = [2] :=
  c1_round_trip 1 [2] [⟨[2], [[1, 2], [3, 4]]⟩, ⟨[2], [[5, 6]]⟩] (by decide)

theorem natFromDigits_natDigitsAux (f : Nat) :
    ∀ n, n ≤ f → natFromDigits (natDigitsAux f n) = n := by
  induction f with
  | zero =>
      intro n hn
      interval_cases n
      rfl
  | succ k ih =>
      intro n hn
      match n with
      | 0 => rfl
      | m + 1 =>
          have hdiv : (m + 1) / 256 ≤ k := by omega
          simp only [natDigitsAux, natFromDigits]
          rw [ih ((m + 1) / 256) hdiv]
          omega

theorem natFromDigits_natDigits (n : Nat) : natFromDigits (natDigits n) = n :=
  natFromDigits_natDigitsAux n n le_rfl

theorem natDigitsAux_lt (f : Nat) : ∀ n, ∀ d ∈ natDigitsAux f n, d < 256 := by
  induction f with
  | zero =>
      intro n d hd
      simp [natDigitsAux] at hd
  | succ k ih =>
      intro n d hd
      match n with
      | 0 => simp [natDigitsAux] at hd
      | m + 1 =>
          simp only [natDigitsAux] at hd
          rcases List.mem_cons.mp hd with h | h
          · subst h
            omega
          · exact ih ((m + 1) / 256) d h

theorem natDigits_lt (n : Nat) : ∀ d ∈ natDigits n, d < 256 :=
  natDigitsAux_lt n n

theorem dropTake_marker (l rest : List Nat) (hl : ∀ d ∈ l, d < 256) :
    (l ++ 256 :: rest).takeWhile (fun b => b < 256) = l ∧
    (l ++ 256 :: rest).dropWhile (fun b => b < 256) = 256 :: rest := by
  induction l with
  | nil =>
      constructor <;> simp [List.takeWhile, List.dropWhile]
  | cons x xs ih =>
      have hx : x < 256 := hl x (List.mem_cons_self x xs)
      obtain ⟨h1, h2⟩ := ih fun d hd => hl d (List.mem_cons_of_mem x hd)
      constructor
      · simp [List.takeWhile_cons, hx, h1]
      · simp [List.dropWhile_cons, hx, h2]

theorem decNat_encNat (n : Nat) (rest : List Nat) :
    decNat (encNat n ++ rest) = some (n, rest) := by
  have h := dropTake_marker (natDigits n) rest (natDigits_lt n)
  have he : encNat n ++ rest = natDigits n ++ 256 :: rest := by
    simp [encNat]
  rw [he]
  simp [decNat, h.1, h.2, natFromDigits_natDigits]

theorem decChars_round (cs : List Char) (rest : List Nat) :
    decChars cs.length (cs.map Char.toNat ++ rest) = some (cs, rest) := by
  induction cs with
  | nil => rfl
  | cons c cc ih => simp [decChars, ih, Char.ofNat_toNat]

theorem decEntry_encEntry (e : String × Nat × Nat) (rest : List Nat) :
    decEntry (encEntry e ++ rest) = some (e, rest) := by
  obtain ⟨s, a, b⟩ := e
  have h1 : encEntry (s, a, b) ++ rest =
      encNat s.length ++ (s.data.map Char.toNat ++ (encNat a ++ (encNat b ++ rest))) := by
    simp [encEntry, encStr, List.append_assoc]
  rw [h1]
  have h2 : s.length = s.data.length := rfl
  simp only [decEntry, decNat_encNat, h2, decChars_round, Option.bind_eq_bind,
    Option.some_bind]
  rfl

theorem decEntries_round (m : PtrIndex) (rest : List Nat) :
    decEntries m.length ((m.map encEntry).flatten ++ rest) = some (m, rest) := by
  induction m with
  | nil => rfl
  | cons e es ih =>
      have h1 : ((e :: es).map encEntry).flatten ++ rest =
          encEntry e ++ ((es.map encEntry).flatten ++ rest) := by
        simp [List.append_assoc]
      rw [List.length_cons, h1]
      simp only [decEntries, decEntry_encEntry, ih, Option.bind_eq_bind,
        Option.some_bind, Option.pure_def]

theorem pickleLoads_pickleDumps (m : PtrIndex) :
    pickleLoads (pickleDumps m) = some m := by
  have h : pickleDumps m = encNat m.length ++ ((m.map encEntry).flatten ++ []) := by
    simp [pickleDumps]
  rw [h]
  simp only [pickleLoads, decNat_encNat, decEntries_round, Option.bind_eq_bind,
    Option.some_bind, Option.pure_def]

theorem length_toBytesBE (w n : Nat) : (toBytesBE w n).length = w := by
  induction w generalizing n with
  | zero => rfl
  | succ k ih => simp [toBytesBE, ih]

theorem fromBytesBE_toBytesBE (w n : Nat) (h : n < 256 ^ w) :
    fromBytesBE (toBytesBE w n) = n := by
  induction w generalizing n with
  | zero =>
      simp [Nat.pow_zero, Nat.lt_one_iff] at h
      simp [h, toBytesBE, fromBytesBE]
  | succ k ih =>
      have hd : n / 256 < 256 ^ k := by
        rw [Nat.div_lt_iff_lt_mul (by norm_num)]
        calc n < 256 ^ (k + 1) := h
          _ = 256 ^ k * 256 := by ring
      have hrec := ih (n / 256) hd
      simp only [fromBytesBE] at hrec ⊢
      simp only [toBytesBE, List.foldl_append, List.foldl_cons, List.foldl_nil]
      rw [hrec]
      omega

/-- The trailer protocol read against a file laid out as
`anything ++ blob ++ 8-byte big-endian blob length`. -/
theorem readTrailer_spec (X B : List Nat) (hfit : B.length < 256 ^ 8) :
    readTrailer (X ++ B ++ toBytesBE 8 B.length) = pickleLoads B := by
  have h8 : (toBytesBE 8 B.length).length = 8 := length_toBytesBE 8 _
  simp only [readTrailer]
  have hn : (X ++ B ++ toBytesBE 8 B.length).length = X.length + B.length + 8 := by
    simp [h8]
    omega
  rw [hn]
  have hi1 : X.length + B.length + 8 - 8 = (X ++ B).length := by simp
  rw [hi1, List.drop_left, fromBytesBE_toBytesBE 8 B.length hfit]
  have hi2 : (X ++ B).length - B.length = X.length := by simp
  rw [hi2]
  have hsplit : X ++ B ++ toBytesBE 8 B.length = X ++ (B ++ toBytesBE 8 B.length) := by
    simp [List.append_assoc]
  rw [hsplit, List.drop_left, List.take_left]

/-- C3 — Named-index open seeding: with no `existing_index`, a freshly
created store starts from an empty mapping; reopening a previously indexed
non-empty file takes its last 8 bytes as the big-endian trailer-blob length,
unpickles the blob immediately preceding them and seeds the mapping with
exactly the flushed index. -/
theorem c3_named_index_open_seeding (sh : List (Option Int)) (isz : Nat)
    (df : DiskFile) (m : PtrIndex)
    (hrows : df.headerRowCount = df.dataRows.length)
    (hpos : 0 < df.headerRowCount)
    (htail : df.tail = pickleDumps m ++ toBytesBE 8 (pickleDumps m).length)
    (hfit : (pickleDumps m).length < 256 ^ 8) :
    (∃ pw, pInit none (some sh) (some isz) false none = .ok pw ∧ pw.indices = []) ∧
    pInit (some df) none none false none = .ok
      { base := { file := df, startPos := df.headerRowCount, isClosed := false },
        indices := m, isIndicesSaved := false } := by
  constructor
  · exact ⟨_, rfl, rfl⟩
  · have h1 : pInit (some df) none none false none =
        (if df.headerRowCount = 0 ∨ df.dataRows.length = 0 then
          pure { base := { file := df, startPos := df.headerRowCount, isClosed := false },
                 indices := [], isIndicesSaved := false }
        else
          match readTrailer (fileBytes df) with
          | some idx =>
              pure { base := { file := df, startPos := df.headerRowCount, isClosed := false },
                     indices := idx, isIndicesSaved := false }
          | none => .error .unpicklingError) := rfl
    have h3 : readTrailer (fileBytes df) = some m := by
      have hs := readTrailer_spec
        (List.replicate (alignedMemmapOffset df.itemsize) 0 ++ df.dataRows.flatten)
        (pickleDumps m) hfit
      rw [pickleLoads_pickleDumps] at hs
      rw [← hs]
      congr 1
      simp [fileBytes, htail, List.append_assoc]
    rw [h1, if_neg (by omega), h3]
    rfl

/-- Witness for C3: a one-row file whose tail is the flushed trailer of the
one-entry index `{"a": (0, 1)}` seeds exactly that index on reopen, and a
fresh creation seeds the empty index. -/
theorem c3_named_index_open_seeding_witness :
    (∃ pw, pInit none (some [some 0]) (some 1) false none = .ok pw ∧
        pw.indices = []) ∧
    pInit (some { itemsize := 1, headerRowCount := 1, trailing := [],
                  dataRows := [[7]],
                  tail := pickleDumps [("a", 0, 1)] ++
                    toBytesBE 8 (pickleDumps [("a", 0, 1)]).length })
        none none false none = .ok
      { base := { file := { itemsize := 1, headerRowCount := 1, trailing := [],
                            dataRows := [[7]],
                            tail := pickleDumps [("a", 0, 1)] ++
                              toBytesBE 8 (pickleDumps [("a", 0, 1)]).length },
                  startPos := 1, isClosed := false },
        indices := [("a", 0, 1)], isIndicesSaved := false } :=
  c3_named_index_open_seeding [some 0] 1 _ [("a", 0, 1)]
    (by decide) (by decide) rfl (by decide)

theorem assignRanges_keys_tiles (start : Nat) (blocks : List (String × NpArr)) :
    ((assignRanges start blocks).map fun e => e.1) = blocks.map (fun e => e.1) ∧
    tilesFrom start ((assignRanges start blocks).map fun e => e.2)
      (start + (blocks.map fun e => e.2.rows.length).sum) = true := by
  induction blocks generalizing start with
  | nil => simp [assignRanges, tilesFrom]
  | cons e es ih =>
      obtain ⟨h1, h2⟩ := ih (start + e.2.rows.length)
      constructor
      · simp [assignRanges, h1]
      · simp only [assignRanges, tilesFrom, List.map_cons, List.sum_cons]
        rw [← Nat.add_assoc]
        simp [h2, Nat.le_add_right]

theorem except_map_ok {α β : Type} (f : α → β) (x : Except Err α) (b : β)
    (h : x.map f = .ok b) : ∃ a, x = .ok a ∧ b = f a := by
  cases x with
  | error e => simp [Except.map] at h
  | ok a =>
      simp [Except.map] at h
      exact ⟨a, rfl, h.symm⟩

/-- C4 — Index range determinism: an indexed write of named blocks resolved
to start position `P` assigns the accepted keys, in the input mapping's
iteration order, ranges that exactly tile `[P, P + total accepted rows)` —
no gaps, no overlaps — and these are exactly the entries merged into the
shared index. -/
theorem c4_index_range_determinism (pw : PtrWriter) (entries : List (String × NpArr))
    (sp : Option Int) :
    ((assignRanges (resolveStart pw.base sp) (pAccepted pw.base entries)).map
        fun e => e.1) = (pAccepted pw.base entries).map (fun e => e.1) ∧
    tilesFrom (resolveStart pw.base sp)
      ((assignRanges (resolveStart pw.base sp) (pAccepted pw.base entries)).map
        fun e => e.2)
      (resolveStart pw.base sp +
        ((pAccepted pw.base entries).map fun e => e.2.rows.length).sum) = true ∧
    (∀ pw', pwrite pw entries sp = .ok pw' →
      pw'.indices = dictUpdate pw.indices
        (assignRanges (resolveStart pw.base sp) (pAccepted pw.base entries))) := by
  obtain ⟨h1, h2⟩ := assignRanges_keys_tiles (resolveStart pw.base sp)
    (pAccepted pw.base entries)
  refine ⟨h1, h2, fun pw' h => ?_⟩
  simp only [pwrite] at h
  obtain ⟨w', hw, hpw⟩ := except_map_ok _ _ _ h
  rw [hpw]

/-- Witness for C4: two conforming blocks (2 rows then 3 rows) and one
non-conforming block written at append position 2 record exactly
`a=(2,4), c=(4,7)`, tiling `[2, 7)`. -/
theorem c4_index_range_determinism_witness :
    (((assignRanges (resolveStart pwEx.base none)
        (pAccepted pwEx.base
          [("a", ⟨[1], [[1], [2]]⟩), ("b", ⟨[9], [[9]]⟩), ("c", ⟨[1], [[3], [4], [5]]⟩)])).map
        fun e => e.1) =
      (pAccepted pwEx.base
          [("a", ⟨[1], [[1], [2]]⟩), ("b", ⟨[9], [[9]]⟩), ("c", ⟨[1], [[3], [4], [5]]⟩)]).map
        (fun e => e.1)) ∧
    (∀ pw', pwrite pwEx
        [("a", ⟨[1], [[1], [2]]⟩), ("b", ⟨[9], [[9]]⟩), ("c", ⟨[1], [[3], [4], [5]]⟩)] none
        = .ok pw' →
      pw'.indices = [("a", 2, 4), ("c", 4, 7)]) :=
  have h := c4_index_range_determinism pwEx
    [("a", ⟨[1], [[1], [2]]⟩), ("b", ⟨[9], [[9]]⟩), ("c", ⟨[1], [[3], [4], [5]]⟩)] none
  ⟨h.1, fun pw' hok => by rw [h.2.2 pw' hok]; rfl⟩

/-- C5 — Trailer-flush idempotence: with no intervening indexed write, a
second `flush` is the identity on the writer — in particular it appends no
second trailer to the file. -/
theorem c5_trailer_flush_idempotent (pw : PtrWriter) :
    pflush (pflush pw) = pflush pw := by
  by_cases h : pw.isIndicesSaved
  · simp [pflush, h]
  · simp [pflush, h]

/-- C9 — evaluation of the indexed-write input validation at inputs the
claim says must fail with `InvalidArgument`: a `dict` with a non-string key
passes the check unchallenged, an object without `.items()` dies with
`AttributeError` instead, and a perfectly valid string-to-array non-`dict`
mapping is the one input the check rejects. -/
theorem c9_indexed_write_validation_eval :
    checkWriteArg (.dict [(.int 1, .arr ⟨[2], [[1, 2]]⟩)]) = .ok () ∧
    checkWriteArg .nonMapping = .error .attributeError ∧
    checkWriteArg (.mapping [(.str "a", .arr ⟨[2], [[1, 2]]⟩)]) =
      .error .badIndexedInput := by
  refine ⟨rfl, rfl, ?_⟩
  rfl

theorem lookupA_setA_self {β : Type} (l : List (String × β)) (k : String) (v : β) :
    lookupA (setA l k v) k = some v := by
  induction l with
  | nil => simp [setA, lookupA]
  | cons e es ih =>
      by_cases h : e.1 = k
      · simp [setA, h, lookupA]
      · simp [setA, h, lookupA, ih]

theorem lookupA_setA_ne {β : Type} (l : List (String × β)) (k k' : String) (v : β)
    (h : k' ≠ k) : lookupA (setA l k v) k' = lookupA l k' := by
  induction l with
  | nil => simp [setA, lookupA, Ne.symm h]
  | cons e es ih =>
      by_cases he : e.1 = k
      · simp [setA, he, lookupA, Ne.symm h]
      · simp [setA, he, lookupA, ih]

theorem lookupA_removeA_ne {β : Type} (l : List (String × β)) (k k' : String)
    (h : k' ≠ k) : lookupA (removeA l k) k' = lookupA l k' := by
  induction l with
  | nil => rfl
  | cons e es ih =>
      by_cases he : e.1 = k
      · simp [removeA, he, lookupA, Ne.symm h, ih]
      · simp [removeA, he, lookupA, ih]

theorem setA_length_le {β : Type} (l : List (String × β)) (k : String) (v : β) :
    (setA l k v).length ≤ l.length + 1 := by
  induction l with
  | nil => simp [setA]
  | cons e es ih =>
      by_cases he : e.1 = k
      · simp [setA, he]
      · simp only [setA, he, if_false, List.length_cons]
        omega

theorem set_append_last {α : Type} (l : List α) (a v : α) :
    (l ++ [a]).set l.length v = l ++ [v] := by
  induction l with
  | nil => rfl
  | cons x xs ih => simp [List.set, ih]

theorem runInit_registry (p : Proc) (i : Nat) (path : String)
    (shape : Option (List (Option Int))) (isz : Option Nat) (re : Bool) :
    (runInit p i path shape isz re).1.registry = p.registry := by
  rcases h : openInit (lookupA p.disk path) shape isz re with e | w <;>
    simp [runInit, h]

theorem runInit_heap_length (p : Proc) (i : Nat) (path : String)
    (shape : Option (List (Option Int))) (isz : Option Nat) (re : Bool) :
    (runInit p i path shape isz re).1.heap.length = p.heap.length := by
  rcases h : openInit (lookupA p.disk path) shape isz re with e | w <;>
    simp [runInit, h, List.length_set]

theorem runInit_idx (p : Proc) (i : Nat) (path : String)
    (shape : Option (List (Option Int))) (isz : Option Nat) (re : Bool) (j : Nat)
    (h : (runInit p i path shape isz re).2 = .ok j) : j = i := by
  rcases ho : openInit (lookupA p.disk path) shape isz re with e | w
  · simp [runInit, ho] at h
  · simp [runInit, ho] at h
    exact h.symm

theorem runInit_ok (p : Proc) (i : Nat) (path : String)
    (shape : Option (List (Option Int))) (isz : Option Nat) (re : Bool) (w : Writer)
    (h : openInit (lookupA p.disk path) shape isz re = .ok w) :
    runInit p i path shape isz re =
      ({ p with
          disk := setA (if re then removeA p.disk path else p.disk) path w.file,
          heap := p.heap.set i { path := path, w := w } },
        .ok i) := by
  simp [runInit, h]

theorem construct_live (p : Proc) (path : String)
    (shape : Option (List (Option Int))) (isz : Option Nat) (re : Bool)
    (i : Nat) (obj : WriterObj)
    (hreg : lookupA p.registry path = some i)
    (hobj : p.heap[i]? = some obj)
    (hlive : obj.w.isClosed = false) :
    construct p path shape isz re = runInit p i path shape isz re := by
  simp [construct, hreg, hobj, hlive]

theorem liveReg_runInit (p : Proc) (i : Nat) (path : String)
    (shape : Option (List (Option Int))) (isz : Option Nat) (re : Bool)
    (h : liveReg p)
    (hreg : lookupA p.registry path = some i) :
    liveReg (runInit p i path shape isz re).1 := by
  rcases ho : openInit (lookupA p.disk path) shape isz re with e | w
  · simp only [runInit, ho, liveReg]
    intro j obj' hj hlive'
    exact h j obj' hj hlive'
  · simp only [runInit, ho, liveReg]
    intro j obj' hj hlive'
    by_cases hij : i = j
    · subst hij
      have hlt : i < p.heap.length := by
        by_contra hge
        rw [List.getElem?_eq_none (by simpa [List.length_set] using hge)] at hj
        exact Option.noConfusion hj
      rw [List.getElem?_set_self hlt] at hj
      have hobj' : ({ path := path, w := w } : WriterObj) = obj' := by
        injection hj
      rw [← hobj']
      exact hreg
    · rw [List.getElem?_set_ne hij] at hj
      exact h j obj' hj hlive'

theorem liveReg_newBranch (p : Proc) (path : String)
    (shape : Option (List (Option Int))) (isz : Option Nat) (re : Bool)
    (h : liveReg p)
    (hnolive : ∀ (j : Nat) (obj' : WriterObj), p.heap[j]? = some obj' →
      obj'.w.isClosed = false → obj'.path ≠ path) :
    liveReg (if p.registry.length > MAX_OPEN_MMAP then
        (p, Except.error Err.writerCeiling)
      else runInit
        { p with heap := p.heap ++ [{ path := path, w := blankWriter }],
                 registry := setA p.registry path p.heap.length }
        p.heap.length path shape isz re).1 := by
  by_cases hceil : p.registry.length > MAX_OPEN_MMAP
  · simpa [hceil] using h
  · rw [if_neg hceil]
    rcases ho : openInit (lookupA p.disk path) shape isz re with e | w
    · simp only [runInit, ho, liveReg]
      intro j obj' hj hlive'
      rw [List.getElem?_append] at hj
      by_cases hlt : j < p.heap.length
      · rw [if_pos hlt] at hj
        have hne := hnolive j obj' hj hlive'
        rw [lookupA_setA_ne _ _ _ _ hne]
        exact h j obj' hj hlive'
      · rw [if_neg hlt] at hj
        rcases hd : j - p.heap.length with _ | d
        · rw [hd] at hj
          have : ({ path := path, w := blankWriter } : WriterObj) = obj' := by
            injection hj
          rw [← this] at hlive'
          simp [blankWriter] at hlive'
        · rw [hd] at hj
          simp at hj
    · simp only [runInit, ho, liveReg]
      intro j obj' hj hlive'
      rw [set_append_last, List.getElem?_append] at hj
      by_cases hlt : j < p.heap.length
      · rw [if_pos hlt] at hj
        have hne := hnolive j obj' hj hlive'
        rw [lookupA_setA_ne _ _ _ _ hne]
        exact h j obj' hj hlive'
      · rw [if_neg hlt] at hj
        rcases hd : j - p.heap.length with _ | d
        · rw [hd] at hj
          have hobj' : ({ path := path, w := w } : WriterObj) = obj' := by
            injection hj
          have hjl : j = p.heap.length := by omega
          subst hjl
          rw [← hobj']
          exact lookupA_setA_self p.registry path p.heap.length
        · rw [hd] at hj
          simp at hj

theorem liveReg_construct (p : Proc) (path : String)
    (shape : Option (List (Option Int))) (isz : Option Nat) (re : Bool)
    (h : liveReg p) :
    liveReg (construct p path shape isz re).1 := by
  by_cases hhit : ∃ i obj, lookupA p.registry path = some i ∧
      p.heap[i]? = some obj ∧ obj.w.isClosed = false
  · obtain ⟨i, obj, hreg, hobj, hlive⟩ := hhit
    rw [construct_live p path shape isz re i obj hreg hobj hlive]
    exact liveReg_runInit p i path shape isz re h hreg
  · have hnolive : ∀ (j : Nat) (obj' : WriterObj), p.heap[j]? = some obj' →
        obj'.w.isClosed = false → obj'.path ≠ path := by
      intro j obj' hj hl hp
      exact hhit ⟨j, obj', by rw [← hp]; exact h j obj' hj hl, hj, hl⟩
    have hbranch : construct p path shape isz re =
        (if p.registry.length > MAX_OPEN_MMAP then
          (p, Except.error Err.writerCeiling)
        else runInit
          { p with heap := p.heap ++ [{ path := path, w := blankWriter }],
                   registry := setA p.registry path p.heap.length }
          p.heap.length path shape isz re) := by
      rcases hreg : lookupA p.registry path with _ | i
      · simp [construct, hreg]
      · rcases hobj : p.heap[i]? with _ | obj
        · simp [construct, hreg, hobj]
        · by_cases hc : obj.w.isClosed = true
          · simp [construct, hreg, hobj, hc]
          · exact absurd ⟨i, obj, hreg, hobj, by simpa using hc⟩ hhit
    rw [hbranch]
    exact liveReg_newBranch p path shape isz re h hnolive

theorem liveReg_procClose (p : Proc) (i : Nat) (h : liveReg p) :
    liveReg (procClose p i) := by
  rcases hobj : p.heap[i]? with _ | obj
  · simpa [procClose, hobj] using h
  · by_cases hc : obj.w.isClosed = true
    · simpa [procClose, hobj, hc] using h
    · have hcf : obj.w.isClosed = false := by simpa using hc
      simp only [procClose, hobj, hcf, Bool.false_eq_true, if_false, liveReg]
      intro j obj' hj hlive'
      obtain ⟨hlt, _⟩ := List.getElem?_eq_some.mp hobj
      by_cases hij : i = j
      · subst hij
        rw [List.getElem?_set_self hlt] at hj
        have : ({ obj with w := { obj.w with isClosed := true } } : WriterObj)
            = obj' := by injection hj
        rw [← this] at hlive'
        simp at hlive'
      · rw [List.getElem?_set_ne hij] at hj
        have hl := h j obj' hj hlive'
        by_cases hp : obj'.path = obj.path
        · have hi := h i obj hobj hcf
          rw [hp] at hl
          rw [hl] at hi
          exact absurd (Option.some.inj hi).symm hij
        · rw [lookupA_removeA_ne _ _ _ hp]
          exact hl

theorem liveReg_of_liveRegB (p : Proc) (h : liveRegB p = true) : liveReg p := by
  intro i obj hi hl
  obtain ⟨hlt, _⟩ := List.getElem?_eq_some.mp hi
  have ha := List.all_eq_true.mp h i (List.mem_range.mpr hlt)
  rw [hi] at ha
  simp only [hl, Bool.false_eq_true, if_false] at ha
  exact eq_of_beq ha

theorem construct_newBranch (p : Proc) (path : String)
    (shape : Option (List (Option Int))) (isz : Option Nat) (re : Bool)
    (hmiss : ∀ (i : Nat) (obj : WriterObj), lookupA p.registry path = some i →
      p.heap[i]? = some obj → obj.w.isClosed = true) :
    construct p path shape isz re =
      if p.registry.length > MAX_OPEN_MMAP then
        (p, Except.error Err.writerCeiling)
      else runInit
        { p with heap := p.heap ++ [{ path := path, w := blankWriter }],
                 registry := setA p.registry path p.heap.length }
        p.heap.length path shape isz re := by
  rcases hreg : lookupA p.registry path with _ | i
  · simp [construct, hreg]
  · rcases hobj : p.heap[i]? with _ | obj
    · simp [construct, hreg, hobj]
    · have hc := hmiss i obj hreg hobj
      simp [construct, hreg, hobj, hc]

/-- C6 [amended] — Writer singleton: the `liveReg` invariant — every live
handle is the unique registry entry for its path, so at most one live handle
per path exists — is preserved by construction and by close; a construction
that hits a live registry entry returns that same handle (no new handle, the
registry untouched), but Python re-runs `__init__` on the returned handle:
its state is overwritten with a freshly initialized writer for the path —
file reopened, mapping rebuilt, append cursor reset to the header row count
— rather than left unchanged. -/
theorem c6_writer_singleton_amended (p : Proc) (path : String)
    (shape : Option (List (Option Int))) (isz : Option Nat) (re : Bool) (j : Nat) :
    (liveReg p → liveReg (construct p path shape isz re).1) ∧
    (liveReg p → liveReg (procClose p j)) ∧
    (∀ (i : Nat) (obj : WriterObj), lookupA p.registry path = some i →
      p.heap[i]? = some obj → obj.w.isClosed = false →
      (construct p path shape isz re).1.heap.length = p.heap.length ∧
      (construct p path shape isz re).1.registry = p.registry ∧
      (∀ k, (construct p path shape isz re).2 = .ok k → k = i) ∧
      (∀ w, openInit (lookupA p.disk path) shape isz re = .ok w →
        construct p path shape isz re =
          ({ p with
              disk := setA (if re then removeA p.disk path else p.disk) path w.file,
              heap := p.heap.set i { path := path, w := w } },
            .ok i))) := by
  refine ⟨liveReg_construct p path shape isz re,
          liveReg_procClose p j,
          fun i obj hreg hobj hlive => ?_⟩
  have hc := construct_live p path shape isz re i obj hreg hobj hlive
  rw [hc]
  exact ⟨runInit_heap_length p i path shape isz re,
         runInit_registry p i path shape isz re,
         fun k hk => runInit_idx p i path shape isz re k hk,
         fun w hw => runInit_ok p i path shape isz re w hw⟩

/-- Witness for C6 [amended], on the concrete process holding one live
10-row writer at path `"a"`: the invariant survives a second construction
and a close, and the second construction returns handle 0 reinitialized —
cursor at 10, the 10-row file remapped. -/
theorem c6_writer_singleton_amended_witness :
    liveReg (construct c6p1 "a" none none false).1 ∧
    liveReg (procClose c6p1 0) ∧
    (construct c6p1 "a" none none false).1.heap.length = c6p1.heap.length ∧
    (construct c6p1 "a" none none false).1.registry = c6p1.registry ∧
    (∀ k, (construct c6p1 "a" none none false).2 = .ok k → k = 0) ∧
    construct c6p1 "a" none none false =
      ({ c6p1 with
          disk := setA c6p1.disk "a" wFirst.file,
          heap := c6p1.heap.set 0
            { path := "a",
              w := { file := wFirst.file, startPos := 10, isClosed := false } } },
        .ok 0) :=
  have h := c6_writer_singleton_amended c6p1 "a" none none false 0
  have hLive : liveReg c6p1 := liveReg_of_liveRegB c6p1 (by decide)
  have h3 := h.2.2 0 { path := "a", w := wFirst } rfl rfl rfl
  ⟨h.1 hLive, h.2.1 hLive, h3.1, h3.2.1, h3.2.2.1,
   h3.2.2.2 { file := wFirst.file, startPos := 10, isClosed := false } rfl⟩

/-- Counterexample to C6 as stated: the second construction on path `"a"`
does return the same handle (index 0), but its state IS altered — the
append cursor jumps from 0 to the header row count 10, because Python runs
`__init__` again on the instance `__new__` returned. -/
theorem c6_writer_singleton_counterexample :
    (construct procEmpty "a" (some [some 10, some 2]) (some 8) false).2 = .ok 0 ∧
    ((c6p1.heap[0]?).map fun o => o.w.startPos) = some 0 ∧
    (construct c6p1 "a" none none false).2 = .ok 0 ∧
    (((construct c6p1 "a" none none false).1.heap[0]?).map fun o => o.w.startPos) =
      some 10 :=
  ⟨rfl, rfl, rfl, rfl⟩

/-- C7 [amended] — Writer ceiling: a construction with no live handle for
its path fails with the `ResourceExhausted` raise when the registry already
holds more than 120 entries; the check runs before the new instance is
registered, so the registry (and with it the number of live handles) can
reach, but never exceed, `120 + 1 = 121`. -/
theorem c7_writer_ceiling_amended (p : Proc) (path : String)
    (shape : Option (List (Option Int))) (isz : Option Nat) (re : Bool) :
    (lookupA p.registry path = none → p.registry.length > MAX_OPEN_MMAP →
      construct p path shape isz re = (p, .error .writerCeiling)) ∧
    (p.registry.length ≤ MAX_OPEN_MMAP + 1 →
      (construct p path shape isz re).1.registry.length ≤ MAX_OPEN_MMAP + 1) := by
  constructor
  · intro hnone hceil
    simp [construct, hnone, hceil]
  · intro hlen
    by_cases hhit : ∃ i obj, lookupA p.registry path = some i ∧
        p.heap[i]? = some obj ∧ obj.w.isClosed = false
    · obtain ⟨i, obj, hreg, hobj, hlive⟩ := hhit
      rw [construct_live p path shape isz re i obj hreg hobj hlive,
        runInit_registry]
      exact hlen
    · have hmiss : ∀ (i : Nat) (obj : WriterObj), lookupA p.registry path = some i →
          p.heap[i]? = some obj → obj.w.isClosed = true := by
        intro i obj hreg hobj
        by_contra hc
        exact hhit ⟨i, obj, hreg, hobj, by simpa using hc⟩
      rw [construct_newBranch p path shape isz re hmiss]
      by_cases hceil : p.registry.length > MAX_OPEN_MMAP
      · simpa [hceil] using hlen
      · rw [if_neg hceil, runInit_registry]
        have h1 := setA_length_le p.registry path p.heap.length
        simp only [MAX_OPEN_MMAP] at hceil ⊢
        omega

set_option maxRecDepth 100000 in
/-- Witness for C7 [amended]: on a process whose registry already holds 121
entries, a fresh-path construction fails with the ceiling error and the
registry stays at 121 ≤ 121. -/
theorem c7_writer_ceiling_amended_witness :
    construct pFull "x" (some [some 1]) (some 1) false =
      (pFull, .error .writerCeiling) ∧
    (construct pFull "x" (some [some 1]) (some 1) false).1.registry.length ≤
      MAX_OPEN_MMAP + 1 :=
  have h := c7_writer_ceiling_amended pFull "x" (some [some 1]) (some 1) false
  ⟨h.1 (by decide) (by decide), h.2 (by decide)⟩

set_option maxRecDepth 100000 in
/-- Counterexample to C7 as stated: from a fresh process, 121 successive
constructions on distinct paths all succeed — the ceiling check
`get_total_opened_mmap() > 120` runs before registration — leaving 121
concurrently live writer handles, which exceeds 120; only the 122nd
construction fails. -/
theorem c7_writer_ceiling_counterexample :
    (constructMany 121).registry.length = 121 ∧
    (constructMany 121).heap.length = 121 ∧
    ((constructMany 121).heap.all fun o => o.w.isClosed = false) = true ∧
    (construct (constructMany 121) "extra" (some [some 1]) (some 1) false).2 =
      .error .writerCeiling := by
  exact ⟨by decide, by decide, by decide, rfl⟩

end BigArray
